import Mathlib

/-!
Shallow embedding of the game-logic core of the TicTacToe repository
(rules evaluation, move-selection policy, difficulty calibration, turn and
session state machines), with theorems checking the natural-language
specification against the code.

Marks are `Player.X` / `Player.O`; a cell is `Option Player` (`none` is the
JS `null`).  A board is a list of cells (always of length 9 in the app;
theorems carry the length hypothesis where it matters).  JS `board[i]`
indexing is `List.get?` (`none` models JS `undefined` for out-of-range
reads).  Every `Math.random()` draw is a value of an injected stream
`rng : ℕ → ℚ`, consumed in source order; `Math.floor(Math.random()*len)`
selection is the `pick` helper.
-/

namespace TicTacToe

/-- The two marks, `'X' | 'O'`. -/
inductive Player
  | X
  | O
deriving DecidableEq, Repr

/-- Values of the `winner` field of `checkWinner`: `'X' | 'O' | 'draw'`
(`null` is modelled as `Option.none` around this type). -/
inductive WinVal
  | X
  | O
  | draw
deriving DecidableEq, Repr

/-- The winner value carried by a mark. -/
def Player.toWin : Player → WinVal
  | .X => .X
  | .O => .O

/-- The opposite mark. -/
def Player.other : Player → Player
  | .X => .O
  | .O => .X

/-- A cell: `none` is the JS `null` (empty). -/
abbrev Cell := Option Player

/-- A board: ordered cells, row-major, indices 0-8. -/
abbrev Board := List Cell

/-- A line of three cell indices. -/
abbrev LineT := ℕ × ℕ × ℕ

/-- JS `board[i]` as a cell value for the rules scan: out-of-range reads
(`undefined`) behave like an empty cell there (both are falsy). -/
def cellAt (b : Board) (i : ℕ) : Cell := (b.get? i).join

/-- One step of the JS win test
`board[a] && board[a] === board[b] && board[a] === board[c]`:
the mark winning on line `l`, if any. -/
def lineWin (b : Board) (l : LineT) : Option Player :=
  match cellAt b l.1 with
  | none => none
  | some p =>
    if cellAt b l.2.1 = some p ∧ cellAt b l.2.2 = some p then some p else none

/-- The `for (const line of lines)` loop with early `return`: the first line
of the list won by some mark, scanning left to right. -/
def scanLines (b : Board) : List LineT → Option (Player × LineT)
  | [] => none
  | l :: ls =>
    match lineWin b l with
    | some p => some (p, l)
    | none => scanLines b ls

/-- The 8 fixed lines, in the scan order shared by all four copies of
`checkWinner`: rows, then columns, then diagonals. -/
def linesList : List LineT :=
  [(0, 1, 2), (3, 4, 5), (6, 7, 8),
   (0, 3, 6), (1, 4, 7), (2, 5, 8),
   (0, 4, 8), (2, 4, 6)]

namespace AIS

/-- `AIService.checkWinner` (AIService.tsx): scan the 8 fixed lines; first
won line gives `Win`; else `draw` when every cell is non-null; else `null`. -/
def checkWinner (board : Board) : Option WinVal × Option LineT :=
  match scanLines board linesList with
  | some (p, l) => (some p.toWin, some l)
  | none =>
    if board.all (fun cell => decide (cell ≠ none)) then (some .draw, none)
    else (none, none)

end AIS

namespace EGB

/-- `checkWinner` inside the `EnhancedGameBoard` component
(EnhancedGameBoard.tsx, first component): textually identical to
`AIService.checkWinner`. -/
def checkWinner (board : Board) : Option WinVal × Option LineT :=
  match scanLines board linesList with
  | some (p, l) => (some p.toWin, some l)
  | none =>
    if board.all (fun cell => decide (cell ≠ none)) then (some .draw, none)
    else (none, none)

end EGB

namespace GB

/-- `checkWinner` inside the `GameBoard` component (EnhancedGameBoard.tsx,
second component): textually identical to `AIService.checkWinner`. -/
def checkWinner (board : Board) : Option WinVal × Option LineT :=
  match scanLines board linesList with
  | some (p, l) => (some p.toWin, some l)
  | none =>
    if board.all (fun cell => decide (cell ≠ none)) then (some .draw, none)
    else (none, none)

end GB

namespace OGS

/-- `OnlineGameService.checkWinner` (OnlineGameService.tsx): textually
identical to `AIService.checkWinner`. -/
def checkWinner (board : Board) : Option WinVal × Option LineT :=
  match scanLines board linesList with
  | some (p, l) => (some p.toWin, some l)
  | none =>
    if board.all (fun cell => decide (cell ≠ none)) then (some .draw, none)
    else (none, none)

end OGS

/-- Specification-side predicate: line `l` has all three cells equal to the
non-empty mark `p`. -/
def lineFilled (b : Board) (l : LineT) (p : Player) : Prop :=
  cellAt b l.1 = some p ∧ cellAt b l.2.1 = some p ∧ cellAt b l.2.2 = some p

instance (b : Board) (l : LineT) (p : Player) : Decidable (lineFilled b l p) := by
  unfold lineFilled; infer_instance

/-- Difficulty tiers, `'easy' | 'medium' | 'hard'` (App.tsx). -/
inductive Difficulty
  | easy
  | medium
  | hard
deriving DecidableEq, Repr

/-- Game modes, `'single' | 'two-player' | 'online'` (App.tsx). -/
inductive GameMode
  | single
  | twoPlayer
  | online
deriving DecidableEq, Repr

/-- JS `list[Math.floor(r * list.length)]` for an injected draw `r`; the
app always draws `r` in `[0,1)` over a non-empty list, where the index is in
range, so the `-1` default is unreachable there. -/
def pick (l : List ℕ) (r : ℚ) : ℤ :=
  match l.get? (⌊r * (l.length : ℚ)⌋).toNat with
  | some m => (m : ℤ)
  | none => -1

/-- A short-circuited JS gate `cond && Math.random() < p`: the draw at
stream position `k` is consumed only when `cond` holds.  Returns the gate
outcome and the next unconsumed stream position. -/
def gate (cond : Bool) (rng : ℕ → ℚ) (k : ℕ) (p : ℚ) : Bool × ℕ :=
  if cond then (decide (rng k < p), k + 1) else (false, k)

namespace AIS

/-- `AIService.getEmptyCells`: indices of the `null` cells, via map+filter
over the board. -/
def getEmptyCells (board : Board) : List ℕ :=
  board.enum.filterMap (fun ic => if ic.2 = none then some ic.1 else none)

/-- `AIService.findWinningMove`: the first empty cell whose play by `player`
makes `checkWinner` report `player` as winner, else `-1`. -/
def findWinningMove (board : Board) (player : Player) : ℤ :=
  match (getEmptyCells board).find? (fun move =>
      decide ((checkWinner (board.set move (some player))).1 = some player.toWin)) with
  | some move => (move : ℤ)
  | none => -1

/-- `AIService.findForkMove`: the first empty cell whose play leaves at
least two immediate winning completions for `player`, else `-1`. -/
def findForkMove (board : Board) (player : Player) : ℤ :=
  match (getEmptyCells board).find? (fun move =>
      let b2 := board.set move (some player)
      decide (2 ≤ (getEmptyCells b2).countP (fun testMove =>
        decide ((checkWinner (b2.set testMove (some player))).1 = some player.toWin)))) with
  | some move => (move : ℤ)
  | none => -1

/-- `AIService.getStrategicMove`.  At most one `Math.random()` draw happens
on any execution path (each drawing site returns immediately), so the single
injected draw `r` stands for whichever site fires. -/
def getStrategicMove (board : Board) (moveCount : ℕ) (r : ℚ) : ℤ :=
  let emptyCells := getEmptyCells board
  let opening : Option ℤ :=
    if moveCount ≤ 1 then
      if board.get? 4 = some none then some 4
      else
        let corners := [0, 2, 6, 8].filter (fun i => decide (board.get? i = some none))
        if corners.isEmpty then none else some (pick corners r)
    else none
  match opening with
  | some move => move
  | none =>
    let forkMove := findForkMove board .O
    if forkMove ≠ -1 then forkMove
    else
      let blockForkMove := findForkMove board .X
      if blockForkMove ≠ -1 then blockForkMove
      else if board.get? 4 = some none then 4
      else
        let corners := [0, 2, 6, 8].filter (fun i => decide (board.get? i = some none))
        if ¬ corners.isEmpty then pick corners r
        else
          let edges := [1, 3, 5, 7].filter (fun i => decide (board.get? i = some none))
          if ¬ edges.isEmpty then pick edges r
          else
            match emptyCells with
            | move :: _ => (move : ℤ)
            | [] => -1

/-- The terminal tests heading `minimaxWithPruning`: `some` score for a
decided board (`winner === 'O' | 'X' | 'draw'`), `none` when play goes on. -/
def terminalEval (board : Board) (depth : ℤ) : Option (ℤ × ℤ) :=
  match (checkWinner board).1 with
  | some .O => some (-1, 10 - depth)
  | some .X => some (-1, depth - 10)
  | some .draw => some (-1, 0)
  | none => none

/-- `AIService.minimaxWithPruning`, returning `(position, score)` with the
JS `-1` position sentinel.  The explicit fuel bounds the recursion depth
(any fuel at least the number of empty cells reproduces the JS recursion:
a non-terminal board always has an empty cell, so the fuel-exhausted arm is
unreachable then; callers pass 9, and a board has at most 9 empty cells).
JS `-Infinity` and `Infinity` are modelled as `-1000` and `1000`: every
score reachable from the app's `depth = 9` start lies in `[-9, 9]`, so the
sentinels compare as infinities throughout.  The alpha-beta `break` is the
final `Bool` of the accumulator: once set, the remaining `foldl` steps
leave the accumulator unchanged, exactly like having left the JS loop. -/
def minimaxFuel : ℕ → Board → ℤ → Bool → ℤ → ℤ → ℤ × ℤ
  | 0, board, depth, _, _, _ =>
    (terminalEval board depth).getD (-1, 0)
  | fuel + 1, board, depth, isMaximizing, alpha, beta =>
    match terminalEval board depth with
    | some r => r
    | none =>
        let emptyCells := getEmptyCells board
        if isMaximizing then
          let step := fun (acc : ℤ × ℤ × ℤ × Bool) (move : ℕ) =>
            if acc.2.2.2 then acc
            else
              let result :=
                minimaxFuel fuel (board.set move (some .O)) (depth + 1) false acc.2.2.1 beta
              let best :=
                if result.2 > acc.2.1 then ((move : ℤ), result.2) else (acc.1, acc.2.1)
              let alpha2 := max acc.2.2.1 result.2
              (best.1, best.2, alpha2, decide (beta ≤ alpha2))
          let r := emptyCells.foldl step (-1, -1000, alpha, false)
          (r.1, r.2.1)
        else
          let step := fun (acc : ℤ × ℤ × ℤ × Bool) (move : ℕ) =>
            if acc.2.2.2 then acc
            else
              let result :=
                minimaxFuel fuel (board.set move (some .X)) (depth + 1) true alpha acc.2.2.1
              let best :=
                if result.2 < acc.2.1 then ((move : ℤ), result.2) else (acc.1, acc.2.1)
              let beta2 := min acc.2.2.1 result.2
              (best.1, best.2, beta2, decide (beta2 ≤ alpha))
          let r := emptyCells.foldl step (-1, 1000, beta, false)
          (r.1, r.2.1)

/-- `AIService.getEasyMove` (position only; confidence/reasoning strings are
UI-only).  The winning move is taken only when its 15% draw fires. -/
def getEasyMove (board : Board) (rng : ℕ → ℚ) : ℤ :=
  let emptyCells := getEmptyCells board
  if emptyCells.isEmpty then -1
  else
    let winMove := findWinningMove board .O
    let g1 := gate (decide (winMove ≠ -1)) rng 0 (15 / 100)
    if g1.1 then winMove
    else
      let blockMove := findWinningMove board .X
      let g2 := gate (decide (blockMove ≠ -1)) rng g1.2 (40 / 100)
      if g2.1 then blockMove
      else pick emptyCells (rng g2.2)

/-- `AIService.getMediumMove` (position only).  The inner fall-through after
a `-1` strategic move is dead code (`getStrategicMove` never returns `-1` on
a non-empty board); its draw index is fixed arbitrarily. -/
def getMediumMove (board : Board) (moveCount : ℕ) (rng : ℕ → ℚ) : ℤ :=
  let emptyCells := getEmptyCells board
  if emptyCells.isEmpty then -1
  else
    let winMove := findWinningMove board .O
    if winMove ≠ -1 then winMove
    else
      let blockMove := findWinningMove board .X
      let g1 := gate (decide (blockMove ≠ -1)) rng 0 (85 / 100)
      if g1.1 then blockMove
      else if rng g1.2 < 60 / 100 then
        let strategicMove := getStrategicMove board moveCount (rng (g1.2 + 1))
        if strategicMove ≠ -1 then strategicMove
        else pick emptyCells (rng (g1.2 + 2))
      else pick emptyCells (rng (g1.2 + 1))

/-- `AIService.getHardMove` (position only): always win, block at 95%, then
deep search at 90%, then strategic, then first empty cell. -/
def getHardMove (board : Board) (moveCount : ℕ) (rng : ℕ → ℚ) : ℤ :=
  let emptyCells := getEmptyCells board
  if emptyCells.isEmpty then -1
  else
    let winMove := findWinningMove board .O
    if winMove ≠ -1 then winMove
    else
      let blockMove := findWinningMove board .X
      let g1 := gate (decide (blockMove ≠ -1)) rng 0 (95 / 100)
      if g1.1 then blockMove
      else
        let fallback : ℤ :=
          let strategicMove := getStrategicMove board moveCount (rng (g1.2 + 1))
          if strategicMove ≠ -1 then strategicMove
          else
            match emptyCells with
            | move :: _ => (move : ℤ)
            | [] => -1
        if rng g1.2 < 90 / 100 then
          let bestMove := minimaxFuel 9 board 9 true (-1000) 1000
          if bestMove.1 ≠ -1 then bestMove.1 else fallback
        else fallback

end AIS

/-- The tuning record behind `AIPersonalityService.personalities` (name,
avatar and description are UI-only strings and are omitted). -/
structure AIPersonality where
  thinkingTime : ℕ
  blunderChance : ℚ
  targetWinRate : ℚ
deriving DecidableEq, Repr

/-- The per-difficulty stats record of `AIPersonalityService`. -/
structure AIStats where
  totalGames : ℕ
  aiWins : ℕ
  playerWins : ℕ
  draws : ℕ
  winRate : ℚ
deriving DecidableEq, Repr

namespace APS

/-- `AIPersonalityService.personalities` (AIPersonalityService.tsx). -/
def personalities : Difficulty → AIPersonality
  | .easy => ⟨800, 15 / 100, 40 / 100⟩
  | .medium => ⟨1000, 8 / 100, 60 / 100⟩
  | .hard => ⟨1200, 3 / 100, 80 / 100⟩

/-- `shouldAITryToWin`, as a function of the loaded stats and the single
random draw `r` that the executed branch consumes. -/
def shouldAITryToWin (difficulty : Difficulty) (stats : AIStats) (r : ℚ) : Bool :=
  let personality := personalities difficulty
  if stats.totalGames < 5 then decide (r < personality.targetWinRate)
  else if personality.targetWinRate + 1 / 10 < stats.winRate then decide (r < 3 / 10)
  else if stats.winRate < personality.targetWinRate - 1 / 10 then decide (r < 9 / 10)
  else decide (r < personality.targetWinRate)

/-- `recordGameResult`, as the pure stats update that the service then
persists (the `localStorage` write stores exactly the returned record; the
`difficulty` argument only selects the storage key). -/
def recordGameResult (difficulty : Difficulty) (stats : AIStats) (winner : WinVal) : AIStats :=
  let s1 := { stats with totalGames := stats.totalGames + 1 }
  let s2 :=
    match winner with
    | .draw => { s1 with draws := s1.draws + 1 }
    | .O => { s1 with aiWins := s1.aiWins + 1 }
    | .X => { s1 with playerWins := s1.playerWins + 1 }
  { s2 with
    winRate := if 0 < s2.totalGames then (s2.aiWins : ℚ) / (s2.totalGames : ℚ) else 0 }

end APS

namespace GB

/-- `GameBoard`'s configuration props that the game logic reads. -/
structure GBConfig where
  gameMode : GameMode
  playerGoesFirst : Bool
deriving DecidableEq, Repr

/-- `getPlayerSymbols` (single-player mode): `(humanSymbol, aiSymbol)`;
the starter gets `X`. -/
def getPlayerSymbols (playerGoesFirst : Bool) : Player × Player :=
  (if playerGoesFirst then .X else .O, if playerGoesFirst then .O else .X)

/-- The human's mark in single-player mode. -/
def humanSymbolOf (playerGoesFirst : Bool) : Player := (getPlayerSymbols playerGoesFirst).1

/-- The AI's mark in single-player mode. -/
def aiSymbolOf (playerGoesFirst : Bool) : Player := (getPlayerSymbols playerGoesFirst).2

/-- `getStartingPlayer`: the code returns `'X'` in every mode. -/
def getStartingPlayer (_cfg : GBConfig) : Player := .X

/-- `TURN_TIME_LIMIT` (seconds). -/
def TURN_TIME_LIMIT : ℕ := 3

/-- The `GameBoard` component state read and written by the turn logic. -/
structure GBState where
  board : Board
  currentPlayer : Player
  gameResult : Option WinVal
  isAiThinking : Bool
  aiThinkingProgress : ℕ
  moveHistory : List Board
  turnTimeLeft : ℕ
  isTimerRunning : Bool
deriving DecidableEq, Repr

/-- `stopTimer`: clears the interval handle and the running flag. -/
def stopTimer (s : GBState) : GBState := { s with isTimerRunning := false }

/-- `isCurrentPlayerHuman`. -/
def isCurrentPlayerHuman (cfg : GBConfig) (s : GBState) : Bool :=
  match cfg.gameMode with
  | .single => decide (s.currentPlayer = humanSymbolOf cfg.playerGoesFirst)
  | _ => true

/-- `startTimer`: refuses when the game is over, the AI is thinking or the
mover is not human; otherwise clears any running timer and starts a fresh
full countdown. -/
def startTimer (cfg : GBConfig) (s : GBState) : GBState :=
  if s.gameResult ≠ none ∨ s.isAiThinking ∨ isCurrentPlayerHuman cfg s = false then s
  else { stopTimer s with turnTimeLeft := TURN_TIME_LIMIT, isTimerRunning := true }

/-- `handleTimeUp`: stop the timer and, unless the game is over, hand the
turn to the opponent without touching the board. -/
def handleTimeUp (cfg : GBConfig) (s : GBState) : GBState :=
  let s1 := stopTimer s
  if s1.gameResult ≠ none then s1
  else if cfg.gameMode = .single ∧ s1.currentPlayer = humanSymbolOf cfg.playerGoesFirst then
    { s1 with currentPlayer := aiSymbolOf cfg.playerGoesFirst }
  else { s1 with currentPlayer := s1.currentPlayer.other }

/-- One firing of the `setInterval` callback installed by `startTimer`:
a cleared timer never fires; at one second or less the countdown reaches
zero and `handleTimeUp` runs (which also clears the interval), otherwise
the countdown decreases by one second. -/
def timerTick (cfg : GBConfig) (s : GBState) : GBState :=
  if s.isTimerRunning = false then s
  else if s.turnTimeLeft ≤ 1 then { handleTimeUp cfg s with turnTimeLeft := 0 }
  else { s with turnTimeLeft := s.turnTimeLeft - 1 }

/-- `undoMove`: pop the last board; in single-player mode pop the AI reply
too when one remains; rebuild the view state and set the current player to
`getStartingPlayer()`.  The `getLastD [] ` default is unreachable (the
guard keeps the history non-empty). -/
def undoMove (cfg : GBConfig) (s : GBState) : GBState :=
  if s.moveHistory.length ≤ 1 ∨ s.gameResult ≠ none ∨ s.isAiThinking then s
  else
    let s1 := stopTimer s
    let h1 := s1.moveHistory.dropLast
    let h2 := if cfg.gameMode = .single ∧ 1 < h1.length then h1.dropLast else h1
    { s1 with
      board := h2.getLastD []
      moveHistory := h2
      currentPlayer := getStartingPlayer cfg
      isAiThinking := false
      aiThinkingProgress := 0
      turnTimeLeft := TURN_TIME_LIMIT }

/-- `GameBoard`'s `getEmptyCells`: a loop over indices 0..8. -/
def getEmptyCells (board : Board) : List ℕ :=
  (List.range 9).filter (fun i => decide (board.get? i = some none))

/-- `GameBoard`'s `isWinningMove`. -/
def isWinningMove (board : Board) (position : ℕ) (player : Player) : Bool :=
  decide ((checkWinner (board.set position (some player))).1 = some player.toWin)

/-- `GameBoard`'s `findWinningMove`: first winning empty cell or `null`. -/
def findWinningMove (board : Board) (player : Player) : Option ℕ :=
  (getEmptyCells board).find? (fun cell => isWinningMove board cell player)

/-- `GameBoard`'s `minimax` (no pruning), fuel-bounded exactly as
`AIS.minimaxFuel`; `Infinity` sentinels are `1000` again.  The terminal
tests compare the winner against the configured AI and human marks. -/
def minimax (fuel : ℕ) (aiSym humanSym : Player) (board : Board) (depth : ℤ)
    (isMaximizing : Bool) : ℤ :=
  let winner := (checkWinner board).1
  if winner = some aiSym.toWin then 10 - depth
  else if winner = some humanSym.toWin then depth - 10
  else if winner = some .draw then 0
  else
    match fuel with
    | 0 => 0
    | fuel + 1 =>
      if isMaximizing then
        (getEmptyCells board).foldl
          (fun maxEval cell =>
            max maxEval
              (minimax fuel aiSym humanSym (board.set cell (some aiSym)) (depth + 1) false))
          (-1000)
      else
        (getEmptyCells board).foldl
          (fun minEval cell =>
            min minEval
              (minimax fuel aiSym humanSym (board.set cell (some humanSym)) (depth + 1) true))
          1000

/-- `GameBoard`'s `getBestMove`: scan the empty cells, keeping the first
strictly improving minimax value (`bestValue` starts at `-Infinity`). -/
def getBestMove (aiSym humanSym : Player) (board : Board) : ℤ :=
  ((getEmptyCells board).foldl
    (fun (acc : ℤ × ℤ) cell =>
      let moveValue := minimax 9 aiSym humanSym (board.set cell (some aiSym)) 0 false
      if moveValue > acc.2 then ((cell : ℤ), moveValue) else acc)
    (-1, -1000)).1

/-- `getSuboptimalMove`: prefer an edge 70% of the time, else uniform. -/
def getSuboptimalMove (board : Board) (rng : ℕ → ℚ) (k : ℕ) : ℤ :=
  let emptyCells := getEmptyCells board
  let edges := [1, 3, 5, 7].filter (fun i => decide (board.get? i = some none))
  let g := gate (decide (¬ edges.isEmpty)) rng k (7 / 10)
  if g.1 then pick edges (rng g.2) else pick emptyCells (rng g.2)

/-- `GameBoard`'s `getAiMove`: blunder layer, casual-play layer, then the
per-difficulty strategy; `aiTry` is the `aiShouldTryToWin` state. -/
def getAiMove (difficulty : Difficulty) (aiTry : Bool) (aiSym humanSym : Player)
    (board : Board) (rng : ℕ → ℚ) : ℤ :=
  let emptyCells := getEmptyCells board
  if emptyCells.isEmpty then -1
  else if rng 0 < (APS.personalities difficulty).blunderChance then pick emptyCells (rng 1)
  else if aiTry = false then
    let blockingMove := findWinningMove board humanSym
    let g := gate blockingMove.isSome rng 1 (4 / 10)
    if g.1 then
      match blockingMove with
      | some m => (m : ℤ)
      | none => -1
    else getSuboptimalMove board rng g.2
  else
    match difficulty with
    | .easy =>
      match findWinningMove board aiSym with
      | some m => (m : ℤ)
      | none =>
        let blockingMove := findWinningMove board humanSym
        let g := gate blockingMove.isSome rng 1 (3 / 10)
        if g.1 then
          match blockingMove with
          | some m => (m : ℤ)
          | none => -1
        else if rng g.2 < 75 / 100 then pick emptyCells (rng (g.2 + 1))
        else getSuboptimalMove board rng (g.2 + 1)
    | .medium =>
      match findWinningMove board aiSym with
      | some m => (m : ℤ)
      | none =>
        let blockingMove := findWinningMove board humanSym
        let g := gate blockingMove.isSome rng 1 (7 / 10)
        if g.1 then
          match blockingMove with
          | some m => (m : ℤ)
          | none => -1
        else if rng g.2 < 4 / 10 then getSuboptimalMove board rng (g.2 + 1)
        else if board.get? 4 = some none then 4
        else
          let corners := [0, 2, 6, 8].filter (fun i => decide (board.get? i = some none))
          if ¬ corners.isEmpty then pick corners (rng (g.2 + 1))
          else pick emptyCells (rng (g.2 + 1))
    | .hard =>
      match findWinningMove board aiSym with
      | some m => (m : ℤ)
      | none =>
        let blockingMove := findWinningMove board humanSym
        let g := gate blockingMove.isSome rng 1 (95 / 100)
        if g.1 then
          match blockingMove with
          | some m => (m : ℤ)
          | none => -1
        else if rng g.2 < 15 / 100 then getSuboptimalMove board rng (g.2 + 1)
        else getBestMove aiSym humanSym board

end GB

namespace OGS

/-- The `GameState` record of `OnlineGameService`. -/
structure OGState where
  board : Board
  currentPlayer : Player
  gameResult : Option WinVal
  winningLine : Option LineT
  moveHistory : List Board
deriving DecidableEq, Repr

/-- The slice of `OnlineGameService`'s fields that `makeMove` reads. -/
structure OnlineSession where
  gameState : Option OGState
  playerSymbol : Option Player
deriving DecidableEq, Repr

/-- `OnlineGameService.makeMove`: validate (state exists, game not over,
cell free, caller's turn), else reject with `false` and no mutation; apply
the mark, hand the turn to `'O'`, append to the history, and record a
terminal result when the move ends the game.  An out-of-range index reads
as JS `undefined`, which fails the `!== null` check and is rejected.  The
`none` branch of the final match is unreachable (the turn guard already
required `playerSymbol` to equal the current player). -/
def makeMove (s : OnlineSession) (position : ℕ) : Bool × OnlineSession :=
  match s.gameState with
  | none => (false, s)
  | some g =>
    if g.gameResult ≠ none then (false, s)
    else if g.board.get? position ≠ some none then (false, s)
    else if some g.currentPlayer ≠ s.playerSymbol then (false, s)
    else
      match s.playerSymbol with
      | none => (false, s)
      | some sym =>
        let newBoard := g.board.set position (some sym)
        let g1 : OGState :=
          { g with
            board := newBoard
            currentPlayer := .O
            moveHistory := g.moveHistory ++ [newBoard] }
        match checkWinner newBoard with
        | (some w, line) =>
          (true, { s with gameState := some { g1 with gameResult := some w, winningLine := line } })
        | (none, _) => (true, { s with gameState := some g1 })

end OGS

/-- Single-player game (human-first configuration) after the human played
`X` at 0 and the AI answered `O` at 4: used to exercise `undoMove`. -/
def undoSampleFirst : GB.GBState :=
  { board := [some .X, none, none, none, some .O, none, none, none, none]
    currentPlayer := .X
    gameResult := none
    isAiThinking := false
    aiThinkingProgress := 0
    moveHistory :=
      [List.replicate 9 none,
       [some .X, none, none, none, none, none, none, none, none],
       [some .X, none, none, none, some .O, none, none, none, none]]
    turnTimeLeft := 3
    isTimerRunning := false }

/-- Single-player game in the AI-first configuration (`playerGoesFirst =
false`, so the AI is `X` and the human is `O`) after AI `X` at 0, human `O`
at 1, AI `X` at 8: the human is to move. -/
def undoSampleAiFirst : GB.GBState :=
  { board := [some .X, some .O, none, none, none, none, none, none, some .X]
    currentPlayer := .O
    gameResult := none
    isAiThinking := false
    aiThinkingProgress := 0
    moveHistory :=
      [List.replicate 9 none,
       [some .X, none, none, none, none, none, none, none, none],
       [some .X, some .O, none, none, none, none, none, none, none],
       [some .X, some .O, none, none, none, none, none, none, some .X]]
    turnTimeLeft := 3
    isTimerRunning := false }

/-- A fresh single-player game state at the human's turn, timer not yet
started: used to exercise the turn timer. -/
def timerSample : GB.GBState :=
  { board := List.replicate 9 none
    currentPlayer := .X
    gameResult := none
    isAiThinking := false
    aiThinkingProgress := 0
    moveHistory := [List.replicate 9 none]
    turnTimeLeft := 3
    isTimerRunning := false }

/-- A freshly initialised online session (human `X` to move on an empty
board), as `findMatch` creates it. -/
def sessionSample : OGS.OnlineSession :=
  { gameState := some
      { board := List.replicate 9 none
        currentPlayer := .X
        gameResult := none
        winningLine := none
        moveHistory := [List.replicate 9 none] }
    playerSymbol := some .X }

/-- A board with a single remaining empty cell (index 8); `O` completes the
main diagonal by playing it. -/
def lastGapBoard : Board :=
  [some .O, some .X, some .O, some .X, some .O, some .X, some .X, some .O, none]

theorem lineWin_eq_some_iff {b : Board} {l : LineT} {p : Player} :
    lineWin b l = some p ↔ lineFilled b l p := by
  unfold lineWin lineFilled
  cases h : cellAt b l.1 with
  | none => simp
  | some q =>
    dsimp only
    split_ifs with hbc
    · constructor
      · intro h'
        obtain rfl := Option.some.inj h'
        exact ⟨rfl, hbc.1, hbc.2⟩
      · rintro ⟨h1, -, -⟩
        obtain rfl := Option.some.inj h1
        rfl
    · constructor
      · intro h'; simp at h'
      · rintro ⟨h1, h2, h3⟩
        obtain rfl := Option.some.inj h1
        exact absurd ⟨h2, h3⟩ hbc

theorem lineWin_eq_none_iff {b : Board} {l : LineT} :
    lineWin b l = none ↔ ∀ p, ¬ lineFilled b l p := by
  constructor
  · intro h p hf
    rw [← lineWin_eq_some_iff] at hf
    rw [h] at hf
    exact Option.noConfusion hf
  · intro h
    cases hw : lineWin b l with
    | none => rfl
    | some p => exact absurd (lineWin_eq_some_iff.mp hw) (h p)

theorem scanLines_eq_none_iff {b : Board} {ls : List LineT} :
    scanLines b ls = none ↔ ∀ l ∈ ls, lineWin b l = none := by
  induction ls with
  | nil => simp [scanLines]
  | cons l ls ih =>
    unfold scanLines
    cases hw : lineWin b l with
    | some p => simp [hw]
    | none => simpa [hw] using ih

/-- First-match characterisation of the line scan: the scan returns
`(p, l)` exactly when the list splits as `pre ++ l :: post` with every
earlier line unwon and `l` won by `p`. -/
theorem scanLines_eq_some_iff {b : Board} {ls : List LineT} {p : Player} {l : LineT} :
    scanLines b ls = some (p, l) ↔
      ∃ pre post, ls = pre ++ l :: post ∧ (∀ l' ∈ pre, lineWin b l' = none) ∧
        lineWin b l = some p := by
  induction ls with
  | nil =>
    simp only [scanLines]
    constructor
    · intro h; exact Option.noConfusion h
    · rintro ⟨pre, post, h, -, -⟩
      exact absurd h (by simp)
  | cons a ls ih =>
    unfold scanLines
    cases hw : lineWin b a with
    | some q =>
      constructor
      · intro h
        obtain ⟨h1, h2⟩ := Prod.mk.injEq .. ▸ (Option.some.injEq _ _).mp h
        exact ⟨[], ls, by simp [← h2], by simp, by rw [← h2, hw, h1]⟩
      · rintro ⟨pre, post, hsplit, hpre, hl⟩
        cases pre with
        | nil =>
          simp only [List.nil_append, List.cons.injEq] at hsplit
          rw [← hsplit.1, hw] at hl
          rw [(Option.some.injEq _ _).mp hl, hsplit.1]
        | cons a' pre' =>
          simp only [List.cons_append, List.cons.injEq] at hsplit
          have := hpre a' (by simp)
          rw [← hsplit.1, hw] at this
          exact Option.noConfusion this
    | none =>
      rw [ih]
      constructor
      · rintro ⟨pre, post, hsplit, hpre, hl⟩
        refine ⟨a :: pre, post, by simp [hsplit], ?_, hl⟩
        intro l' hl'
        rcases List.mem_cons.mp hl' with h | h
        · rw [h]; exact hw
        · exact hpre l' h
      · rintro ⟨pre, post, hsplit, hpre, hl⟩
        cases pre with
        | nil =>
          simp only [List.nil_append, List.cons.injEq] at hsplit
          rw [← hsplit.1, hw] at hl
          exact absurd hl (by simp)
        | cons a' pre' =>
          simp only [List.cons_append, List.cons.injEq] at hsplit
          exact ⟨pre', post, hsplit.2, fun l' h => hpre l' (by simp [h]), hl⟩

theorem Player.toWin_inj {p q : Player} (h : p.toWin = q.toWin) : p = q := by
  cases p <;> cases q <;> first | rfl | exact absurd h (by decide)

theorem forall_lineWin_none_iff {b : Board} {ls : List LineT} :
    (∀ l ∈ ls, lineWin b l = none) ↔ ∀ l ∈ ls, ∀ q, ¬ lineFilled b l q := by
  constructor
  · intro h l hl
    exact lineWin_eq_none_iff.mp (h l hl)
  · intro h l hl
    exact lineWin_eq_none_iff.mpr (h l hl)

/-- **C1**: for every 9-cell board, `checkWinner` returns `Win(m, L)` exactly
when `L` is the first line of the fixed row/column/diagonal scan whose three
cells all hold the non-empty mark `m`; it returns `Draw` exactly when no line
is filled and all cells are non-empty; it returns `InProgress` (`null`)
exactly when no line is filled and some cell is empty.  Concrete instances:
`[X,X,X,_,_,_,_,_,_]` evaluates to `Win(X, [0,1,2])` and the full lineless
board `[X,O,X,O,X,O,O,X,O]` evaluates to `Draw`. -/
theorem checkWinner_rules_spec (b : Board) (hb : b.length = 9) :
    (∀ p l, OGS.checkWinner b = (some p.toWin, some l) ↔
      ∃ pre post, linesList = pre ++ l :: post ∧
        (∀ l' ∈ pre, ∀ q, ¬ lineFilled b l' q) ∧ lineFilled b l p)
  ∧ (OGS.checkWinner b = (some .draw, none) ↔
      (∀ l ∈ linesList, ∀ q, ¬ lineFilled b l q) ∧ ∀ c ∈ b, c ≠ none)
  ∧ (OGS.checkWinner b = (none, none) ↔
      (∀ l ∈ linesList, ∀ q, ¬ lineFilled b l q) ∧ ∃ c ∈ b, c = none)
  ∧ OGS.checkWinner [some .X, some .X, some .X, none, none, none, none, none, none]
      = (some .X, some (0, 1, 2))
  ∧ OGS.checkWinner
        [some .X, some .O, some .X, some .O, some .X, some .O, some .O, some .X, some .O]
      = (some .draw, none) := by
  refine ⟨?_, ?_, ?_, by decide, by decide⟩
  · intro p l
    unfold OGS.checkWinner
    cases hscan : scanLines b linesList with
    | some ql =>
      obtain ⟨q, l'⟩ := ql
      dsimp only
      constructor
      · intro hpair
        simp only [Prod.mk.injEq, Option.some.injEq] at hpair
        obtain rfl := Player.toWin_inj hpair.1
        obtain rfl := hpair.2
        obtain ⟨pre, post, hsplit, hpre, hl⟩ := scanLines_eq_some_iff.mp hscan
        exact ⟨pre, post, hsplit,
          fun l'' h'' q' => lineWin_eq_none_iff.mp (hpre l'' h'') q',
          lineWin_eq_some_iff.mp hl⟩
      · rintro ⟨pre, post, hsplit, hpre, hl⟩
        have hs : scanLines b linesList = some (p, l) :=
          scanLines_eq_some_iff.mpr ⟨pre, post, hsplit,
            fun l'' h'' => lineWin_eq_none_iff.mpr (hpre l'' h''),
            lineWin_eq_some_iff.mpr hl⟩
        rw [hscan] at hs
        simp only [Option.some.injEq, Prod.mk.injEq] at hs
        rw [hs.1, hs.2]
    | none =>
      dsimp only
      split_ifs with hall
      · constructor
        · intro hpair; simp at hpair
        · rintro ⟨pre, post, hsplit, hpre, hl⟩
          have hs : scanLines b linesList = some (p, l) :=
            scanLines_eq_some_iff.mpr ⟨pre, post, hsplit,
              fun l'' h'' => lineWin_eq_none_iff.mpr (hpre l'' h''),
              lineWin_eq_some_iff.mpr hl⟩
          rw [hscan] at hs
          exact absurd hs (by simp)
      · constructor
        · intro hpair; simp at hpair
        · rintro ⟨pre, post, hsplit, hpre, hl⟩
          have hs : scanLines b linesList = some (p, l) :=
            scanLines_eq_some_iff.mpr ⟨pre, post, hsplit,
              fun l'' h'' => lineWin_eq_none_iff.mpr (hpre l'' h''),
              lineWin_eq_some_iff.mpr hl⟩
          rw [hscan] at hs
          exact absurd hs (by simp)
  · unfold OGS.checkWinner
    cases hscan : scanLines b linesList with
    | some ql =>
      obtain ⟨q, l'⟩ := ql
      dsimp only
      constructor
      · intro hpair; simp at hpair
      · rintro ⟨hforall, -⟩
        obtain ⟨pre, post, hsplit, -, hl⟩ := scanLines_eq_some_iff.mp hscan
        exact absurd (lineWin_eq_some_iff.mp hl)
          (hforall l' (by rw [hsplit]; simp) q)
    | none =>
      dsimp only
      have hscan' := scanLines_eq_none_iff.mp hscan
      split_ifs with hall
      · simp only [List.all_eq_true, decide_eq_true_eq] at hall
        simp only [true_iff, eq_self_iff_true]
        exact ⟨forall_lineWin_none_iff.mp hscan', hall⟩
      · simp only [List.all_eq_true, decide_eq_true_eq] at hall
        constructor
        · intro hpair; simp at hpair
        · rintro ⟨-, hcells⟩
          exact absurd hcells hall
  · unfold OGS.checkWinner
    cases hscan : scanLines b linesList with
    | some ql =>
      obtain ⟨q, l'⟩ := ql
      dsimp only
      constructor
      · intro hpair; simp at hpair
      · rintro ⟨hforall, -⟩
        obtain ⟨pre, post, hsplit, -, hl⟩ := scanLines_eq_some_iff.mp hscan
        exact absurd (lineWin_eq_some_iff.mp hl)
          (hforall l' (by rw [hsplit]; simp) q)
    | none =>
      dsimp only
      have hscan' := scanLines_eq_none_iff.mp hscan
      split_ifs with hall
      · simp only [List.all_eq_true, decide_eq_true_eq] at hall
        constructor
        · intro hpair; simp at hpair
        · rintro ⟨-, c, hc, hcnone⟩
          exact absurd hcnone (by simpa using hall c hc)
      · simp only [List.all_eq_true, decide_eq_true_eq] at hall
        push_neg at hall
        obtain ⟨c, hc, hcval⟩ := hall
        simp only [true_iff, eq_self_iff_true]
        exact ⟨forall_lineWin_none_iff.mp hscan', c, hc, hcval⟩

/-- Witness for C1: the characterisation applied to the concrete board
`[X,X,X,_,_,_,_,_,_]`, whose length-9 hypothesis is discharged by `rfl`. -/
theorem checkWinner_rules_spec_witness :
    OGS.checkWinner [some .X, some .X, some .X, none, none, none, none, none, none]
      = (some .X, some (0, 1, 2)) :=
  (checkWinner_rules_spec
    [some .X, some .X, some .X, none, none, none, none, none, none] rfl).2.2.2.1

/-! Helper lemmas about the move policy, shared by several results. -/

theorem GB.findWinningMove_mem {board : Board} {p : Player} {w : ℕ}
    (h : GB.findWinningMove board p = some w) : w ∈ GB.getEmptyCells board :=
  List.mem_of_find?_eq_some h

theorem GB.getEmptyCells_isEmpty_false {board : Board} {w : ℕ}
    (h : w ∈ GB.getEmptyCells board) : (GB.getEmptyCells board).isEmpty = false := by
  rw [List.isEmpty_eq_false]
  exact List.ne_nil_of_mem h

theorem AIS.findWinningMove_cases (board : Board) (p : Player) :
    AIS.findWinningMove board p = -1 ∨
      ∃ w : ℕ, AIS.findWinningMove board p = (w : ℤ) ∧ w ∈ AIS.getEmptyCells board := by
  unfold AIS.findWinningMove
  cases hf : (AIS.getEmptyCells board).find? (fun move =>
      decide ((AIS.checkWinner (board.set move (some p))).1 = some p.toWin)) with
  | none => exact Or.inl rfl
  | some m => exact Or.inr ⟨m, rfl, List.mem_of_find?_eq_some hf⟩

theorem AIS.getEmptyCells_nonempty {board : Board} {w : ℕ}
    (h : w ∈ AIS.getEmptyCells board) : (AIS.getEmptyCells board).isEmpty = false := by
  rw [List.isEmpty_eq_false]
  exact List.ne_nil_of_mem h

theorem AIS.minimaxFuel_win_O (fuel : ℕ) (board : Board) (depth : ℤ) (maxi : Bool)
    (alpha beta : ℤ) (h : (AIS.checkWinner board).1 = some .O) :
    AIS.minimaxFuel fuel board depth maxi alpha beta = (-1, 10 - depth) := by
  have ht : AIS.terminalEval board depth = some (-1, 10 - depth) := by
    unfold AIS.terminalEval; rw [h]
  cases fuel with
  | zero => simp [AIS.minimaxFuel, ht]
  | succ n => simp [AIS.minimaxFuel, ht]

theorem AIS.minimaxFuel_win_X (fuel : ℕ) (board : Board) (depth : ℤ) (maxi : Bool)
    (alpha beta : ℤ) (h : (AIS.checkWinner board).1 = some .X) :
    AIS.minimaxFuel fuel board depth maxi alpha beta = (-1, depth - 10) := by
  have ht : AIS.terminalEval board depth = some (-1, depth - 10) := by
    unfold AIS.terminalEval; rw [h]
  cases fuel with
  | zero => simp [AIS.minimaxFuel, ht]
  | succ n => simp [AIS.minimaxFuel, ht]

theorem AIS.minimaxFuel_draw (fuel : ℕ) (board : Board) (depth : ℤ) (maxi : Bool)
    (alpha beta : ℤ) (h : (AIS.checkWinner board).1 = some .draw) :
    AIS.minimaxFuel fuel board depth maxi alpha beta = (-1, 0) := by
  have ht : AIS.terminalEval board depth = some (-1, 0) := by
    unfold AIS.terminalEval; rw [h]
  cases fuel with
  | zero => simp [AIS.minimaxFuel, ht]
  | succ n => simp [AIS.minimaxFuel, ht]

/-- **C2** (as amended): whenever the blunder layer does not fire and the AI
wants to win, the `GameBoard` policy takes an available immediately winning
cell at every difficulty tier; `AIService`'s medium and hard tiers also
always take it; but `AIService`'s easy tier takes it only when its 15%
random draw fires. -/
theorem win_now_layer :
    (∀ difficulty aiSym humanSym board rng (w : ℕ),
      ¬ rng 0 < (APS.personalities difficulty).blunderChance →
      GB.findWinningMove board aiSym = some w →
      GB.getAiMove difficulty true aiSym humanSym board rng = (w : ℤ))
  ∧ (∀ board moveCount rng (w : ℤ), AIS.findWinningMove board .O = w → w ≠ -1 →
      AIS.getMediumMove board moveCount rng = w)
  ∧ (∀ board moveCount rng (w : ℤ), AIS.findWinningMove board .O = w → w ≠ -1 →
      AIS.getHardMove board moveCount rng = w)
  ∧ (∀ board rng (w : ℤ), AIS.findWinningMove board .O = w → w ≠ -1 →
      rng 0 < 15 / 100 → AIS.getEasyMove board rng = w) := by
  refine ⟨?_, ?_, ?_, ?_⟩
  · intro difficulty aiSym humanSym board rng w hbl hwin
    have hne := GB.getEmptyCells_isEmpty_false (GB.findWinningMove_mem hwin)
    unfold GB.getAiMove
    cases difficulty <;>
      simp only [hne, Bool.false_eq_true, if_false, if_neg hbl, hwin] <;>
      simp
  · intro board moveCount rng w hwin hne
    rcases AIS.findWinningMove_cases board .O with h | ⟨m, hm, hmem⟩
    · rw [h] at hwin
      exact absurd hwin.symm hne
    · have hempty := AIS.getEmptyCells_nonempty hmem
      unfold AIS.getMediumMove
      simp only [hempty, Bool.false_eq_true, if_false, hwin, if_pos hne]
  · intro board moveCount rng w hwin hne
    rcases AIS.findWinningMove_cases board .O with h | ⟨m, hm, hmem⟩
    · rw [h] at hwin
      exact absurd hwin.symm hne
    · have hempty := AIS.getEmptyCells_nonempty hmem
      unfold AIS.getHardMove
      simp only [hempty, Bool.false_eq_true, if_false, hwin, if_pos hne]
  · intro board rng w hwin hne h15
    rcases AIS.findWinningMove_cases board .O with h | ⟨m, hm, hmem⟩
    · rw [h] at hwin
      exact absurd hwin.symm hne
    · have hempty := AIS.getEmptyCells_nonempty hmem
      unfold AIS.getEasyMove
      simp only [hempty, Bool.false_eq_true, if_false, hwin, gate, decide_eq_true_eq,
        if_pos hne, h15, decide_eq_true hne]
      simp [h15]

/-- Witness for C2: a board where `O` wins by playing cell 2; at hard tier,
with the blunder draw not firing, the policy plays 2. -/
theorem win_now_layer_witness :
    GB.getAiMove .hard true .O .X
      [some .O, some .O, none, some .X, some .X, none, none, none, none]
      (fun _ => 1 / 2) = 2 :=
  win_now_layer.1 .hard .O .X
    [some .O, some .O, none, some .X, some .X, none, none, none, none]
    (fun _ => 1 / 2) 2 (by norm_num [APS.personalities]) (by decide)

/-- Counterexample for C2 as stated: on a board where `O` can win at cell 2,
`AIService`'s easy tier with a draw stream of `1/2` (so the 15% win gate
does not fire) plays cell 5 instead of the winning cell 2 --- the free win
is skipped even though no blunder or casual-play layer exists there. -/
theorem win_now_layer_counterexample :
    AIS.findWinningMove
        [some .O, some .O, none, some .X, none, none, some .X, none, none] .O = 2
    ∧ AIS.getEasyMove
        [some .O, some .O, none, some .X, none, none, some .X, none, none]
        (fun _ => 1 / 2) = 5
    ∧ (5 : ℤ) ≠ 2 := by
  have hw : AIS.findWinningMove
      [some .O, some .O, none, some .X, none, none, some .X, none, none] .O = 2 := by
    decide
  have hb : AIS.findWinningMove
      [some .O, some .O, none, some .X, none, none, some .X, none, none] .X = -1 := by
    decide
  have hcell : AIS.getEmptyCells
      [some .O, some .O, none, some .X, none, none, some .X, none, none]
      = [2, 4, 5, 7, 8] := by decide
  have hd15 : decide ((1 : ℚ) / 2 < 15 / 100) = false := by
    rw [decide_eq_false_iff_not]
    norm_num
  have hfloor : (⌊(1 : ℚ) / 2 * (([2, 4, 5, 7, 8] : List ℕ).length : ℚ)⌋ : ℤ) = 2 := by
    norm_num
  have hpick : pick [2, 4, 5, 7, 8] ((1 : ℚ) / 2) = 5 := by
    unfold pick
    rw [hfloor]
    decide
  refine ⟨hw, ?_, by decide⟩
  unfold AIS.getEasyMove
  simp only [hcell, hw, hb, gate]
  norm_num [hd15, hpick]

/-- **C3** (as amended): in `minimaxWithPruning`, a terminal state where the
AI's mark (`O`) wins scores `10 - d`, one where the opponent (`X`) wins
scores `d - 10`, a draw scores `0`, where `d` is the `depth` parameter ---
which `getHardMove` starts at `9` and which grows by one per ply, so an AI
win `k` plies from the search root scores `1 - k`.  Faster wins therefore
still score strictly higher than slower wins (conjunct 4), but a win one
ply from the root is evaluated at `d = 10` and scores `0`, exactly tying a
draw rather than beating it (conjunct 5). -/
theorem minimax_scoring :
    (∀ fuel board depth maxi alpha beta, (AIS.checkWinner board).1 = some .O →
        AIS.minimaxFuel fuel board depth maxi alpha beta = (-1, 10 - depth))
  ∧ (∀ fuel board depth maxi alpha beta, (AIS.checkWinner board).1 = some .X →
        AIS.minimaxFuel fuel board depth maxi alpha beta = (-1, depth - 10))
  ∧ (∀ fuel board depth maxi alpha beta, (AIS.checkWinner board).1 = some .draw →
        AIS.minimaxFuel fuel board depth maxi alpha beta = (-1, 0))
  ∧ (∀ fuel board maxi alpha beta (depth depth' : ℤ),
        (AIS.checkWinner board).1 = some .O → depth < depth' →
        (AIS.minimaxFuel fuel board depth' maxi alpha beta).2
          < (AIS.minimaxFuel fuel board depth maxi alpha beta).2)
  ∧ (∀ fuel maxi alpha beta,
        AIS.minimaxFuel fuel
          [some .O, some .O, some .O, none, none, none, none, none, none]
          10 maxi alpha beta = (-1, 0)) := by
  refine ⟨AIS.minimaxFuel_win_O, AIS.minimaxFuel_win_X, AIS.minimaxFuel_draw, ?_, ?_⟩
  · intro fuel board maxi alpha beta depth depth' h hd
    rw [AIS.minimaxFuel_win_O fuel board depth maxi alpha beta h,
      AIS.minimaxFuel_win_O fuel board depth' maxi alpha beta h]
    dsimp only
    omega
  · intro fuel maxi alpha beta
    exact AIS.minimaxFuel_win_O fuel _ 10 maxi alpha beta (by decide)

/-- Witness for C3: the terminal scoring applied at the concrete arguments
`getHardMove` uses (`depth = 9`, maximizing, sentinels for the infinities)
on a board already won by `O`: the score is `10 - 9 = 1`. -/
theorem minimax_scoring_witness :
    AIS.minimaxFuel 9 [some .O, some .O, some .O, none, none, none, none, none, none]
      9 true (-1000) 1000 = (-1, 1) :=
  minimax_scoring.1 9 _ 9 true (-1000) 1000 (by decide)

/-- Counterexample for C3 as stated: started as `getHardMove` starts it
(depth parameter 9), the search scores a board already won by the AI ---
a terminal state zero plies from the search root --- as `1`, not the
claimed `10 - 0 = 10`. -/
theorem minimax_scoring_counterexample :
    AIS.minimaxFuel 9 [some .O, some .O, some .O, none, none, none, none, none, none]
      9 true (-1000) 1000 = (-1, 1) ∧ ((1 : ℤ) ≠ 10 - 0) := by
  refine ⟨by decide, by decide⟩

/-- **C10**: the four duplicated winner evaluators --- `AIService.checkWinner`,
`EnhancedGameBoard`'s `checkWinner`, `GameBoard`'s `checkWinner` and
`OnlineGameService.checkWinner` --- are extensionally equal: on every board
they return the same winner value and the same winning line. -/
theorem checkWinner_duplicates_equal : ∀ b : Board,
    AIS.checkWinner b = EGB.checkWinner b ∧ EGB.checkWinner b = GB.checkWinner b ∧
      GB.checkWinner b = OGS.checkWinner b :=
  fun _ => ⟨rfl, rfl, rfl⟩

theorem GB.bestMove_foldl_stable (aiSym humanSym : Player) (board : Board) (v : ℤ) :
    ∀ (cs : List ℕ) (acc : ℤ × ℤ),
      (∀ cell ∈ cs, GB.minimax 9 aiSym humanSym (board.set cell (some aiSym)) 0 false = v) →
      acc.2 = v →
      cs.foldl
        (fun (acc : ℤ × ℤ) cell =>
          let moveValue := GB.minimax 9 aiSym humanSym (board.set cell (some aiSym)) 0 false
          if moveValue > acc.2 then ((cell : ℤ), moveValue) else acc)
        acc = acc := by
  intro cs
  induction cs with
  | nil => intro acc _ _; rfl
  | cons c cs ih =>
    intro acc hall hacc
    rw [List.foldl_cons]
    have hc := hall c (by simp)
    have hstep :
        (let moveValue := GB.minimax 9 aiSym humanSym (board.set c (some aiSym)) 0 false
          if moveValue > acc.2 then ((c : ℤ), moveValue) else acc) = acc := by
      simp only [hc, hacc, gt_iff_lt, lt_irrefl, if_false]
    rw [hstep]
    exact ih acc (fun cell h => hall cell (by simp [h])) hacc

/-- **C4** (supporting theorem for the code bug): `GameBoard`'s
`getBestMove` keeps only strictly improving minimax values while scanning
the empty cells in index order, so whenever every available move carries
one common value --- as on the empty board, where every opening is a drawn
game --- it returns the first empty cell, never the centre.  On the empty
board the first empty cell is index 0, so the hard tier's deep-search
branch answers 0 where the claim (and the sibling `AIService`
implementation) give the centre 4. -/
theorem getBestMove_keeps_first_tie (aiSym humanSym : Player) (board : Board) (v : ℤ)
    (c : ℕ) (rest : List ℕ)
    (hl : GB.getEmptyCells board = c :: rest)
    (hv : -1000 < v)
    (hall : ∀ cell ∈ GB.getEmptyCells board,
      GB.minimax 9 aiSym humanSym (board.set cell (some aiSym)) 0 false = v) :
    GB.getBestMove aiSym humanSym board = (c : ℤ) := by
  unfold GB.getBestMove
  rw [hl] at hall ⊢
  rw [List.foldl_cons]
  have hc := hall c (by simp)
  have hstep :
      (let moveValue := GB.minimax 9 aiSym humanSym (board.set c (some aiSym)) 0 false
        if moveValue > ((-1 : ℤ), (-1000 : ℤ)).2 then ((c : ℤ), moveValue)
        else ((-1 : ℤ), (-1000 : ℤ))) = ((c : ℤ), v) := by
    simp only [hc, gt_iff_lt]
    rw [if_pos hv]
  rw [hstep]
  rw [GB.bestMove_foldl_stable aiSym humanSym board v rest ((c : ℤ), v)
    (fun cell h => hall cell (by simp [h])) rfl]

/-- Witness for C4's supporting theorem: on a board whose only empty cell
is 8, every available move carries the common value 10, and `getBestMove`
returns that first (and only) empty cell. -/
theorem getBestMove_keeps_first_tie_witness :
    GB.getBestMove .O .X lastGapBoard = 8 :=
  getBestMove_keeps_first_tie .O .X lastGapBoard 10 8 [] (by decide) (by decide)
    (by decide)

/-- **C5** (as amended): in single-player mode, when a human move and the
AI reply are on the history, undo removes exactly two plies and sets the
current player to the starting symbol `X` (`getStartingPlayer()`); that is
the human exactly when `playerGoesFirst` is true --- when the AI goes
first, the turn is handed to the AI (`X`), not the human. -/
theorem undoMove_removes_pair (cfg : GB.GBConfig) (s : GB.GBState)
    (hmode : cfg.gameMode = .single) (hres : s.gameResult = none)
    (hth : s.isAiThinking = false) (hlen : 3 ≤ s.moveHistory.length) :
    (GB.undoMove cfg s).moveHistory = s.moveHistory.dropLast.dropLast
    ∧ (GB.undoMove cfg s).moveHistory.length = s.moveHistory.length - 2
    ∧ (GB.undoMove cfg s).board = s.moveHistory.dropLast.dropLast.getLastD []
    ∧ (GB.undoMove cfg s).currentPlayer = .X
    ∧ (cfg.playerGoesFirst = true →
        (GB.undoMove cfg s).currentPlayer = GB.humanSymbolOf cfg.playerGoesFirst)
    ∧ (cfg.playerGoesFirst = false →
        (GB.undoMove cfg s).currentPlayer = GB.aiSymbolOf cfg.playerGoesFirst) := by
  have hguard : ¬ (s.moveHistory.length ≤ 1 ∨ s.gameResult ≠ none ∨ s.isAiThinking = true) := by
    push_neg
    refine ⟨by omega, hres, by rw [hth]; simp⟩
  have hdrop : 1 < s.moveHistory.dropLast.length := by
    rw [List.length_dropLast]; omega
  have hU : GB.undoMove cfg s =
      { s with
        board := s.moveHistory.dropLast.dropLast.getLastD []
        moveHistory := s.moveHistory.dropLast.dropLast
        currentPlayer := Player.X
        isAiThinking := false
        aiThinkingProgress := 0
        turnTimeLeft := GB.TURN_TIME_LIMIT
        isTimerRunning := false } := by
    unfold GB.undoMove GB.stopTimer GB.getStartingPlayer
    rw [if_neg hguard]
    dsimp only
    rw [if_pos ⟨hmode, hdrop⟩]
  refine ⟨by rw [hU], ?_, by rw [hU], by rw [hU], ?_, ?_⟩
  · rw [hU]
    dsimp only
    simp only [List.length_dropLast]
    omega
  · intro hpg
    rw [hU]
    dsimp only
    rw [hpg]
    rfl
  · intro hpg
    rw [hU]
    dsimp only
    rw [hpg]
    rfl

/-- Witness for C5: in the human-first configuration, undoing after the
AI's reply leaves exactly the initial board on the history and the human
(`X`) to move. -/
theorem undoMove_removes_pair_witness :
    (GB.undoMove ⟨.single, true⟩ undoSampleFirst).currentPlayer = Player.X ∧
      (GB.undoMove ⟨.single, true⟩ undoSampleFirst).moveHistory.length = 1 := by
  have h := undoMove_removes_pair ⟨.single, true⟩ undoSampleFirst rfl rfl rfl (by decide)
  refine ⟨h.2.2.2.1, ?_⟩
  rw [h.2.1]
  decide

/-- Counterexample for C5 as stated: in the AI-first configuration
(`playerGoesFirst = false`, human plays `O`), undoing a human move plus AI
reply sets the current player to `X` --- the AI's mark, not the human's,
so the human is not left to move. -/
theorem undoMove_counterexample :
    (GB.undoMove ⟨.single, false⟩ undoSampleAiFirst).currentPlayer = Player.X
    ∧ GB.humanSymbolOf false = Player.O
    ∧ GB.aiSymbolOf false = Player.X
    ∧ Player.X ≠ Player.O := by
  refine ⟨by decide, rfl, rfl, by decide⟩

theorem GB.timerTick_stopped {cfg : GB.GBConfig} {s : GB.GBState}
    (h : s.isTimerRunning = false) : GB.timerTick cfg s = s := by
  unfold GB.timerTick
  rw [if_pos h]

/-- **C6**: starting the turn timer on a human, non-terminal turn and
letting it fire to expiry switches the current player to the opponent
exactly once --- the board and history are untouched at every tick, the
switch happens at the expiry tick, and every further tick leaves the state
fixed (the timer was stopped), so no second switch and no auto-move ever
occur. -/
theorem turn_timeout_forfeit (cfg : GB.GBConfig) (s : GB.GBState)
    (hres : s.gameResult = none) (hth : s.isAiThinking = false)
    (hhum : GB.isCurrentPlayerHuman cfg s = true) :
    (∀ k, k < GB.TURN_TIME_LIMIT →
        ((GB.timerTick cfg)^[k] (GB.startTimer cfg s)).currentPlayer = s.currentPlayer
        ∧ ((GB.timerTick cfg)^[k] (GB.startTimer cfg s)).board = s.board)
    ∧ ((GB.timerTick cfg)^[GB.TURN_TIME_LIMIT] (GB.startTimer cfg s)).board = s.board
    ∧ ((GB.timerTick cfg)^[GB.TURN_TIME_LIMIT] (GB.startTimer cfg s)).moveHistory
        = s.moveHistory
    ∧ ((GB.timerTick cfg)^[GB.TURN_TIME_LIMIT] (GB.startTimer cfg s)).currentPlayer
        = s.currentPlayer.other
    ∧ s.currentPlayer.other ≠ s.currentPlayer
    ∧ (∀ k, GB.TURN_TIME_LIMIT ≤ k →
        (GB.timerTick cfg)^[k] (GB.startTimer cfg s)
          = (GB.timerTick cfg)^[GB.TURN_TIME_LIMIT] (GB.startTimer cfg s)) := by
  have hs0 : GB.startTimer cfg s = { s with turnTimeLeft := 3, isTimerRunning := true } := by
    unfold GB.startTimer GB.stopTimer
    rw [if_neg (by
      push_neg
      refine ⟨hres, by rw [hth]; simp, by rw [hhum]; simp⟩)]
    rfl
  have h1 : GB.timerTick cfg { s with turnTimeLeft := 3, isTimerRunning := true }
      = { s with turnTimeLeft := 2, isTimerRunning := true } := by
    unfold GB.timerTick
    dsimp only
    rw [if_neg (by simp), if_neg (by norm_num)]
  have h2 : GB.timerTick cfg { s with turnTimeLeft := 2, isTimerRunning := true }
      = { s with turnTimeLeft := 1, isTimerRunning := true } := by
    unfold GB.timerTick
    dsimp only
    rw [if_neg (by simp), if_neg (by norm_num)]
  have hswitch : GB.handleTimeUp cfg { s with turnTimeLeft := 1, isTimerRunning := true }
      = { s with
          currentPlayer := s.currentPlayer.other
          turnTimeLeft := 1
          isTimerRunning := false } := by
    unfold GB.handleTimeUp GB.stopTimer
    dsimp only
    rw [if_neg (by simp [hres])]
    cases hgm : cfg.gameMode with
    | single =>
      have hcp : s.currentPlayer = GB.humanSymbolOf cfg.playerGoesFirst := by
        unfold GB.isCurrentPlayerHuman at hhum
        rw [hgm] at hhum
        exact of_decide_eq_true hhum
      rw [if_pos ⟨rfl, hcp⟩]
      have hai : GB.aiSymbolOf cfg.playerGoesFirst = s.currentPlayer.other := by
        rw [hcp]
        cases cfg.playerGoesFirst <;> rfl
      rw [hai]
    | twoPlayer => rw [if_neg (by simp)]
    | online => rw [if_neg (by simp)]
  have h3 : GB.timerTick cfg { s with turnTimeLeft := 1, isTimerRunning := true }
      = { s with
          currentPlayer := s.currentPlayer.other
          turnTimeLeft := 0
          isTimerRunning := false } := by
    unfold GB.timerTick
    dsimp only
    rw [if_neg (by simp), if_pos (by norm_num), hswitch]
  have hiter : ∀ k, k ≤ 3 → (GB.timerTick cfg)^[k] (GB.startTimer cfg s) =
      (match k with
        | 0 => { s with turnTimeLeft := 3, isTimerRunning := true }
        | 1 => { s with turnTimeLeft := 2, isTimerRunning := true }
        | 2 => { s with turnTimeLeft := 1, isTimerRunning := true }
        | _ => { s with
            currentPlayer := s.currentPlayer.other
            turnTimeLeft := 0
            isTimerRunning := false }) := by
    intro k hk
    interval_cases k
    · simpa using hs0
    · rw [show (GB.timerTick cfg)^[1] (GB.startTimer cfg s)
          = GB.timerTick cfg (GB.startTimer cfg s) from rfl, hs0, h1]
    · rw [show (GB.timerTick cfg)^[2] (GB.startTimer cfg s)
          = GB.timerTick cfg (GB.timerTick cfg (GB.startTimer cfg s)) from rfl,
        hs0, h1, h2]
    · rw [show (GB.timerTick cfg)^[3] (GB.startTimer cfg s)
          = GB.timerTick cfg (GB.timerTick cfg (GB.timerTick cfg (GB.startTimer cfg s)))
          from rfl, hs0, h1, h2, h3]
  have hother : s.currentPlayer.other ≠ s.currentPlayer := by
    cases s.currentPlayer <;> decide
  have hfix : ∀ m, (GB.timerTick cfg)^[m] ((GB.timerTick cfg)^[3] (GB.startTimer cfg s))
      = (GB.timerTick cfg)^[3] (GB.startTimer cfg s) := by
    intro m
    induction m with
    | zero => rfl
    | succ n ihn =>
      rw [Function.iterate_succ_apply', ihn]
      apply GB.timerTick_stopped
      rw [hiter 3 (by norm_num)]
  refine ⟨?_, ?_, ?_, ?_, hother, ?_⟩
  · intro k hk
    have hk3 : k ≤ 3 := by
      unfold GB.TURN_TIME_LIMIT at hk
      omega
    rw [hiter k hk3]
    unfold GB.TURN_TIME_LIMIT at hk
    interval_cases k <;> exact ⟨rfl, rfl⟩
  · rw [show GB.TURN_TIME_LIMIT = 3 from rfl, hiter 3 (by norm_num)]
  · rw [show GB.TURN_TIME_LIMIT = 3 from rfl, hiter 3 (by norm_num)]
  · rw [show GB.TURN_TIME_LIMIT = 3 from rfl, hiter 3 (by norm_num)]
  · intro k hk
    rw [show GB.TURN_TIME_LIMIT = 3 from rfl] at hk ⊢
    obtain ⟨m, rfl⟩ : ∃ m, k = m + 3 := ⟨k - 3, by omega⟩
    rw [Function.iterate_add_apply]
    exact hfix m

/-- Witness for C6: a fresh single-player game at the human's (`X`) turn;
after three ticks of the started timer, the turn has passed to `O` with
the empty board untouched. -/
theorem turn_timeout_forfeit_witness :
    ((GB.timerTick ⟨.single, true⟩)^[GB.TURN_TIME_LIMIT]
        (GB.startTimer ⟨.single, true⟩ timerSample)).currentPlayer = Player.O
    ∧ ((GB.timerTick ⟨.single, true⟩)^[GB.TURN_TIME_LIMIT]
        (GB.startTimer ⟨.single, true⟩ timerSample)).board = List.replicate 9 none := by
  have h := turn_timeout_forfeit ⟨.single, true⟩ timerSample rfl rfl (by decide)
  exact ⟨h.2.2.2.1, h.2.1⟩

/-- **C7**: `makeMove` returns `false` and leaves the session unchanged
exactly when the move is illegal (no game state, game already over, target
cell not free --- including out-of-range reads --- or not the caller's
turn); a legal move returns `true`, places the caller's mark (`X`: the
service only ever assigns `X` to the local player) on the chosen cell,
hands the turn to the opponent and appends the new board to the history. -/
theorem makeMove_validation (s : OGS.OnlineSession) (p : ℕ) (hp : p < 9)
    (hsym : s.playerSymbol = some .X) :
    ((OGS.makeMove s p).1 = false ↔
      (s.gameState = none ∨ ∃ g, s.gameState = some g ∧
        (g.gameResult ≠ none ∨ g.board.get? p ≠ some none ∨ g.currentPlayer ≠ .X)))
    ∧ ((OGS.makeMove s p).1 = false → (OGS.makeMove s p).2 = s)
    ∧ (∀ g, s.gameState = some g → g.gameResult = none → g.board.get? p = some none →
        g.currentPlayer = .X →
        (OGS.makeMove s p).1 = true
        ∧ ∃ g', (OGS.makeMove s p).2.gameState = some g'
            ∧ g'.board = g.board.set p (some .X)
            ∧ g'.currentPlayer = .O
            ∧ g'.currentPlayer ≠ g.currentPlayer
            ∧ g'.moveHistory = g.moveHistory ++ [g.board.set p (some .X)]) := by
  obtain ⟨gs, ps⟩ := s
  cases gs with
  | none =>
    refine ⟨by simp [OGS.makeMove], fun _ => rfl, ?_⟩
    intro g hg
    exact absurd hg (by simp)
  | some g =>
    simp only [Option.some.injEq] at hsym
    subst hsym
    by_cases hres : g.gameResult = none
    · by_cases hcell : g.board.get? p = some none
      · by_cases hturn : g.currentPlayer = Player.X
        · have hM : ∃ gr wl,
              OGS.makeMove ⟨some g, some .X⟩ p =
                (true,
                  { gameState := some { g with
                      board := g.board.set p (some Player.X)
                      currentPlayer := Player.O
                      moveHistory := g.moveHistory ++ [g.board.set p (some Player.X)]
                      gameResult := gr
                      winningLine := wl }
                    playerSymbol := some Player.X }) := by
            unfold OGS.makeMove
            dsimp only
            rw [if_neg (by simpa using hres), if_neg (by simpa using hcell),
              if_neg (by simpa using hturn)]
            cases hw : OGS.checkWinner (g.board.set p (some Player.X)) with
            | mk w line =>
              cases w with
              | none => exact ⟨g.gameResult, g.winningLine, rfl⟩
              | some wv => exact ⟨some wv, line, rfl⟩
          obtain ⟨gr, wl, hM⟩ := hM
          refine ⟨?_, ?_, ?_⟩
          · rw [hM]
            simp only [Bool.true_eq_false, false_iff]
            rintro (h | ⟨g', hg', hbad⟩)
            · exact absurd h (by simp)
            · simp only [Option.some.injEq] at hg'
              subst hg'
              rcases hbad with h | h | h
              · exact h hres
              · exact h hcell
              · exact h hturn
          · intro hfalse
            rw [hM] at hfalse
            exact absurd hfalse (by simp)
          · intro g' hg' _ _ _
            simp only [Option.some.injEq] at hg'
            subst hg'
            rw [hM]
            have hOne : Player.O ≠ g.currentPlayer := by
              rw [hturn]
              decide
            exact ⟨rfl,
              ⟨{ g with
                  board := g.board.set p (some Player.X)
                  currentPlayer := Player.O
                  moveHistory := g.moveHistory ++ [g.board.set p (some Player.X)]
                  gameResult := gr
                  winningLine := wl },
                rfl, rfl, rfl, hOne, rfl⟩⟩
        · have hM : OGS.makeMove ⟨some g, some .X⟩ p = (false, ⟨some g, some .X⟩) := by
            unfold OGS.makeMove
            dsimp only
            rw [if_neg (by simpa using hres), if_neg (by simpa using hcell),
              if_pos (by simpa using hturn)]
          refine ⟨?_, fun _ => by rw [hM], ?_⟩
          · rw [hM]
            simp only [true_iff]
            exact Or.inr ⟨g, rfl, Or.inr (Or.inr hturn)⟩
          · intro g' hg' _ _ hturn'
            simp only [Option.some.injEq] at hg'
            subst hg'
            exact absurd hturn' hturn
      · have hM : OGS.makeMove ⟨some g, some .X⟩ p = (false, ⟨some g, some .X⟩) := by
          unfold OGS.makeMove
          dsimp only
          rw [if_neg (by simpa using hres), if_pos (by simpa using hcell)]
        refine ⟨?_, fun _ => by rw [hM], ?_⟩
        · rw [hM]
          simp only [true_iff]
          exact Or.inr ⟨g, rfl, Or.inr (Or.inl hcell)⟩
        · intro g' hg' _ hcell' _
          simp only [Option.some.injEq] at hg'
          subst hg'
          exact absurd hcell' hcell
    · have hM : OGS.makeMove ⟨some g, some .X⟩ p = (false, ⟨some g, some .X⟩) := by
        unfold OGS.makeMove
        dsimp only
        rw [if_pos (by simpa using hres)]
      refine ⟨?_, fun _ => by rw [hM], ?_⟩
      · rw [hM]
        simp only [true_iff]
        exact Or.inr ⟨g, rfl, Or.inl hres⟩
      · intro g' hg' hres' _ _
        simp only [Option.some.injEq] at hg'
        subst hg'
        exact absurd hres' hres

/-- Witness for C7: in a fresh session the first move on the centre cell
succeeds and hands the turn to `O`. -/
theorem makeMove_validation_witness :
    (OGS.makeMove sessionSample 4).1 = true := by
  have h := makeMove_validation sessionSample 4 (by norm_num) rfl
  exact (h.2.2 _ rfl rfl (by decide) rfl).1

/-- **C8**: `shouldAITryToWin` decides by one random draw `r`: with fewer
than 5 recorded games the result is `r < target`; with at least 5 games it
is `r < 0.3` when the realized win-rate exceeds the target by more than
0.1, `r < 0.9` when it is below by more than 0.1, and `r < target`
otherwise; the targets are 0.40, 0.60 and 0.80 for easy, medium, hard. -/
theorem shouldTryToWin_calibration (d : Difficulty) (stats : AIStats) (r : ℚ) :
    ((APS.shouldAITryToWin d stats r = true) ↔
      ((stats.totalGames < 5 ∧ r < (APS.personalities d).targetWinRate)
        ∨ (5 ≤ stats.totalGames
            ∧ 1 / 10 < stats.winRate - (APS.personalities d).targetWinRate
            ∧ r < 3 / 10)
        ∨ (5 ≤ stats.totalGames
            ∧ 1 / 10 < (APS.personalities d).targetWinRate - stats.winRate
            ∧ r < 9 / 10)
        ∨ (5 ≤ stats.totalGames
            ∧ |stats.winRate - (APS.personalities d).targetWinRate| ≤ 1 / 10
            ∧ r < (APS.personalities d).targetWinRate)))
    ∧ (APS.personalities .easy).targetWinRate = 40 / 100
    ∧ (APS.personalities .medium).targetWinRate = 60 / 100
    ∧ (APS.personalities .hard).targetWinRate = 80 / 100 := by
  refine ⟨?_, rfl, rfl, rfl⟩
  unfold APS.shouldAITryToWin
  by_cases h5 : stats.totalGames < 5
  · rw [if_pos h5]
    simp only [decide_eq_true_eq]
    constructor
    · intro hr
      exact Or.inl ⟨h5, hr⟩
    · rintro (⟨-, hr⟩ | ⟨h, -, -⟩ | ⟨h, -, -⟩ | ⟨h, -, -⟩)
      · exact hr
      all_goals omega
  · have h5' : 5 ≤ stats.totalGames := by omega
    rw [if_neg h5]
    by_cases hhi : (APS.personalities d).targetWinRate + 1 / 10 < stats.winRate
    · rw [if_pos hhi]
      simp only [decide_eq_true_eq]
      constructor
      · intro hr
        exact Or.inr (Or.inl ⟨h5', by linarith, hr⟩)
      · rintro (⟨h, -⟩ | ⟨-, -, hr⟩ | ⟨-, hx, -⟩ | ⟨-, hx, -⟩)
        · omega
        · exact hr
        · linarith
        · rw [abs_le] at hx
          linarith [hx.1]
    · rw [if_neg hhi]
      by_cases hlo : stats.winRate < (APS.personalities d).targetWinRate - 1 / 10
      · rw [if_pos hlo]
        simp only [decide_eq_true_eq]
        constructor
        · intro hr
          exact Or.inr (Or.inr (Or.inl ⟨h5', by linarith, hr⟩))
        · rintro (⟨h, -⟩ | ⟨-, hx, -⟩ | ⟨-, -, hr⟩ | ⟨-, hx, -⟩)
          · omega
          · linarith
          · exact hr
          · rw [abs_le] at hx
            linarith [hx.2]
      · rw [if_neg hlo]
        simp only [decide_eq_true_eq]
        have habs : |stats.winRate - (APS.personalities d).targetWinRate| ≤ 1 / 10 :=
          abs_le.mpr ⟨by linarith, by linarith⟩
        constructor
        · intro hr
          exact Or.inr (Or.inr (Or.inr ⟨h5', habs, hr⟩))
        · rintro (⟨h, -⟩ | ⟨-, hx, -⟩ | ⟨-, hx, -⟩ | ⟨-, -, hr⟩)
          · omega
          · linarith
          · linarith
          · exact hr

/-- **C9** (as amended): `recordGameResult` increments games-played by one
and exactly one of the draw / AI-wins / human-wins counters, choosing the
AI-wins counter exactly when the winning mark is `'O'` --- which is the
mark the AI played only in the human-first configuration
(`aiSymbolOf true = O`); when the AI went first it plays `X`
(`aiSymbolOf false = X`) and its win is recorded as a human win --- and
recomputes the stored win-rate as `aiWins / gamesPlayed` on the updated
counters. -/
theorem recordGameResult_counters (d : Difficulty) (stats : AIStats) :
    (APS.recordGameResult d stats .draw).totalGames = stats.totalGames + 1
  ∧ (APS.recordGameResult d stats .X).totalGames = stats.totalGames + 1
  ∧ (APS.recordGameResult d stats .O).totalGames = stats.totalGames + 1
  ∧ (APS.recordGameResult d stats .draw).draws = stats.draws + 1
  ∧ (APS.recordGameResult d stats .draw).aiWins = stats.aiWins
  ∧ (APS.recordGameResult d stats .draw).playerWins = stats.playerWins
  ∧ (APS.recordGameResult d stats .O).aiWins = stats.aiWins + 1
  ∧ (APS.recordGameResult d stats .O).playerWins = stats.playerWins
  ∧ (APS.recordGameResult d stats .O).draws = stats.draws
  ∧ (APS.recordGameResult d stats .X).playerWins = stats.playerWins + 1
  ∧ (APS.recordGameResult d stats .X).aiWins = stats.aiWins
  ∧ (APS.recordGameResult d stats .X).draws = stats.draws
  ∧ (∀ w, (APS.recordGameResult d stats w).winRate =
      ((APS.recordGameResult d stats w).aiWins : ℚ)
        / ((APS.recordGameResult d stats w).totalGames : ℚ))
  ∧ GB.aiSymbolOf true = Player.O
  ∧ GB.aiSymbolOf false = Player.X := by
  refine ⟨rfl, rfl, rfl, rfl, rfl, rfl, rfl, rfl, rfl, rfl, rfl, rfl, ?_, rfl, rfl⟩
  intro w
  cases w <;> simp [APS.recordGameResult]

/-- Counterexample for C9 as stated: in the AI-first configuration the AI
plays `X` (`aiSymbolOf false = X`), yet recording an `X` win increments
the human-wins counter, not the AI-wins counter. -/
theorem recordGameResult_counterexample :
    GB.aiSymbolOf false = Player.X
    ∧ (APS.recordGameResult .hard ⟨0, 0, 0, 0, 0⟩ .X).aiWins = 0
    ∧ (APS.recordGameResult .hard ⟨0, 0, 0, 0, 0⟩ .X).playerWins = 1 :=
  ⟨rfl, rfl, rfl⟩

end TicTacToe
